import Mathlib

/-!
Shallow embedding of `action.go` of the radix Redis client (package `radix`),
covering the parts the verified claims are about:

* the pipeline aggregator (`pipeline`): its correlation list of
  `pipelineMarshalerUnmarshaler` entries, `setErr`, the aggregate
  `MarshalRESP` / `UnmarshalRESP` passes, and the error-resolution logic of
  `Perform`;
* command actions (`cmdAction`): `noKeyCmds`, `findStreamsKeys` and `Keys`;
* the `MaybeNil` receiver wrapper;
* `EvalScript` / `evalAction`: construction, `Keys`, and the
  EVALSHA-to-EVAL retry flow of `Perform`;
* `withConn` and its `Keys`.

Go errors are modelled by the inductive `RErr`: `RErr.base` is any
non-discarded error and `RErr.discarded` is the `resp.ErrDiscarded` wrapper
around its `Err` field.  `errors.As(err, &errDiscarded)` succeeds exactly
when the head of the unwrap chain is a `discarded` wrapper (in the source,
`ErrDiscarded` is the only wrapper type that occurs in these chains).

A `resp.Marshaler` is modelled by the outcome of its `MarshalRESP` call:
either the bytes it writes (`Except.ok`) or the error it returns
(`Except.error`, in which case it contributes no bytes).  A
`resp.Unmarshaler` is modelled by the outcome of its `UnmarshalRESP` call on
the reply stream: `none` for success, `some e` for a decode error `e`.
Go `nil` interface fields are `Option.none`.
-/

/-- Errors: `base c` is a non-discarded error (tagged by a code), and
`discarded e` is `resp.ErrDiscarded{Err: e}`. -/
inductive RErr where
  | base (code : Nat)
  | discarded (e : RErr)
deriving DecidableEq, Repr

/-- `errors.As(err, &errDiscarded)` followed by reading `errDiscarded.Err`:
returns `some` of the wrapped error when `err` is an `ErrDiscarded`
wrapper, `none` otherwise. -/
def errorsAsDiscarded : RErr → Option RErr
  | RErr.discarded e => some e
  | RErr.base _ => none

/-- The unwrap loop at the end of `(*pipeline).Perform`: repeatedly replace
`err` by `errDiscarded.Err` while `errors.As(err, &errDiscarded)` holds. -/
def unwrapAll : RErr → RErr
  | RErr.base c => RErr.base c
  | RErr.discarded e => unwrapAll e

/-- One correlation-list entry (`pipelineMarshalerUnmarshaler`):
the embedded `resp.Marshaler` and `resp.Unmarshaler` (modelled by the
outcomes of their calls, `none` when the Go field is nil) and the `err`
slot. -/
structure pipelineMarshalerUnmarshaler where
  Marshaler : Option (Except RErr (List Nat))
  Unmarshaler : Option (Option RErr)
  err : Option RErr
deriving Repr

namespace pipeline

/-- `(*pipeline).setErr(startingAt, err)`: set the `err` slot of every entry
whose index is `>= startingAt`. -/
def setErr : Nat → RErr → List pipelineMarshalerUnmarshaler →
    List pipelineMarshalerUnmarshaler
  | _, _, [] => []
  | 0, e, m :: rest => { m with err := some e } :: setErr 0 e rest
  | n + 1, e, m :: rest => m :: setErr n e rest

/-- `(*pipeline).MarshalRESP(w)`: iterate the correlation list in order,
skipping entries with a nil `Marshaler`; on the first marshal failure record
that error on the failing entry and every later one (the Go code calls
`setErr(i, err)` and breaks) and write nothing further.  Returns the updated
entries, the bytes written to `w`, and the method's return value — which is
`nil` on every path (`return nil`). -/
def MarshalRESP : List pipelineMarshalerUnmarshaler →
    List pipelineMarshalerUnmarshaler × List Nat × Option RErr
  | [] => ([], [], none)
  | m :: rest =>
    match m.Marshaler with
    | none =>
      let r := MarshalRESP rest
      (m :: r.1, r.2.1, none)
    | some (Except.ok bs) =>
      let r := MarshalRESP rest
      (m :: r.1, bs ++ r.2.1, none)
    | some (Except.error e) =>
      ({ m with err := some e } :: setErr 0 e rest, [], none)

/-- `(*pipeline).UnmarshalRESP(br)`: iterate in order; skip entries with a
nil `Unmarshaler` or a non-nil `err`; on a decode error that
`errors.As`-matches `resp.ErrDiscarded` record it on that entry alone and
continue; on any other decode error record it on that entry and every later
one (`setErr(i, err)`) and stop consuming replies. -/
def UnmarshalRESP : List pipelineMarshalerUnmarshaler →
    List pipelineMarshalerUnmarshaler
  | [] => []
  | m :: rest =>
    match m.Unmarshaler, m.err with
    | none, _ => m :: UnmarshalRESP rest
    | some _, some _ => m :: UnmarshalRESP rest
    | some none, none => m :: UnmarshalRESP rest
    | some (some e), none =>
      if (errorsAsDiscarded e).isSome then
        { m with err := some e } :: UnmarshalRESP rest
      else
        { m with err := some e } :: setErr 0 e rest

/-- The first scanning loop of `(*pipeline).Perform`: a single left-to-right
pass over the correlation list computing the pair `(err, allDiscarded)`.
Entries with a nil `err` are skipped; otherwise `err = m.err` (so the pass
keeps the LAST non-nil error), and `allDiscarded` is cleared whenever
`errors.As(m.err, &errDiscarded)` fails. -/
def scanErrs (mm : List pipelineMarshalerUnmarshaler) : Option RErr × Bool :=
  mm.foldl
    (fun acc m =>
      match m.err with
      | none => acc
      | some e => (some e, acc.2 && (errorsAsDiscarded e).isSome))
    (none, true)

/-- The error-resolution tail of `(*pipeline).Perform` (the path where the
outer submit succeeded): scan the recorded errors, then unwrap the kept
error through `ErrDiscarded` layers unless all recorded errors were
discarded-kind. -/
def resolveErr (mm : List pipelineMarshalerUnmarshaler) : Option RErr :=
  match scanErrs mm with
  | (none, _) => none
  | (some e, allDiscarded) =>
    if allDiscarded then some e else some (unwrapAll e)

/-- `(*pipeline).Perform`, from the point where the pipeline submits itself
to the real connection.  `mm` is the correlation list as left by the
aggregate marshal/unmarshal passes, and `submitErr` is the return value of
the outer `c.EncodeDecode(p, p)` call.  On a submit error the code runs
`p.setErr(0, err)` and returns that error; otherwise it resolves the
recorded per-item errors.  Returns the final correlation list and the
returned error. -/
def Perform (mm : List pipelineMarshalerUnmarshaler) (submitErr : Option RErr) :
    List pipelineMarshalerUnmarshaler × Option RErr :=
  match submitErr with
  | some e => (setErr 0 e mm, some e)
  | none => (mm, resolveErr mm)

end pipeline

/-- Modelled from the spec's words (§4.4 step 6), for comparison with the
code's `pipeline.scanErrs`: "let the first non-nil recorded error be the
candidate". -/
def specFirstErr : List pipelineMarshalerUnmarshaler → Option RErr
  | [] => none
  | m :: rest =>
    match m.err with
    | some e => some e
    | none => specFirstErr rest

/-- Modelled from the spec's words (§4.4 step 6): resolve the returned
error taking the FIRST non-nil recorded error as the candidate, returning
it as-is when every recorded error is discarded-kind and fully unwrapping
it otherwise. -/
def specResolveErr (mm : List pipelineMarshalerUnmarshaler) : Option RErr :=
  match specFirstErr mm with
  | none => none
  | some e =>
    if (pipeline.scanErrs mm).2 then some e else some (unwrapAll e)

/-- `strings.ToUpper`, character by character.  (`Char.toUpper` agrees with
Go's per-rune upper-casing on ASCII, which covers every name and token the
dispatch compares against.) -/
def goToUpper (s : String) : String :=
  String.mk (s.data.map Char.toUpper)

/-- `strings.HasPrefix(s, p)`: `len(s) >= len(p) && s[:len(p)] == p`. -/
def strHasPre (s p : String) : Bool :=
  s.data.take p.data.length == p.data

/-- The `noKeyCmds` map of `action.go`, as the set of command names mapped
to `true`. -/
def noKeyCmds : List String :=
  ["SENTINEL",
   "CLUSTER", "READONLY", "READWRITE", "ASKING",
   "AUTH", "ECHO", "PING", "QUIT", "SELECT", "SWAPDB",
   "KEYS", "MIGRATE", "OBJECT", "RANDOMKEY", "WAIT", "SCAN",
   "EVAL", "EVALSHA", "SCRIPT",
   "BGREWRITEAOF", "BGSAVE", "CLIENT", "COMMAND", "CONFIG", "DBSIZE",
   "DEBUG", "FLUSHALL", "FLUSHDB", "INFO", "LASTSAVE", "MONITOR", "ROLE",
   "SAVE", "SHUTDOWN", "SLAVEOF", "SLOWLOG", "SYNC", "TIME",
   "DISCARD", "EXEC", "MULTI", "UNWATCH", "WATCH"]

/-- `findStreamsKeys(args)`: scan for the first argument whose upper-casing
is `STREAMS`; with `rest` the arguments after it, take
`ids := len(rest) / 2` and return `args[i+1 : len(args)-ids]`, i.e. `rest`
without its trailing `ids` elements.  Without the token, return nil. -/
def findStreamsKeys : List String → List String
  | [] => []
  | arg :: rest =>
    if goToUpper arg = "STREAMS" then
      rest.take (rest.length - rest.length / 2)
    else
      findStreamsKeys rest

/-- A `cmdAction` as built by `Cmd` (with `flat = false`) or `FlatCmd`
(with `flat = true` and the bound `flatKey`).  The receiver and the
flattened argument values play no part in `Keys` and are omitted. -/
structure cmdAction where
  cmd : String
  args : List String
  flat : Bool
  flatKey : String
deriving Repr

/-- `Cmd(rcv, cmd, args...)`. -/
def Cmd (cmd : String) (args : List String) : cmdAction :=
  { cmd := cmd, args := args, flat := false, flatKey := "" }

/-- `FlatCmd(rcv, cmd, key, args...)`. -/
def FlatCmd (cmd : String) (key : String) : cmdAction :=
  { cmd := cmd, args := [], flat := true, flatKey := key }

/-- `(*cmdAction).Keys()`. -/
def cmdAction.Keys (c : cmdAction) : List String :=
  if c.flat then [c.flatKey]
  else
    let cmd := goToUpper c.cmd
    if cmd = "BITOP" ∧ 1 < c.args.length then c.args.drop 1
    else if cmd = "XINFO" then
      if c.args.length < 2 then [] else (c.args.drop 1).take 1
    else if cmd = "XGROUP" ∧ 1 < c.args.length then (c.args.drop 1).take 1
    else if cmd = "XREAD" ∨ cmd = "XREADGROUP" then findStreamsKeys c.args
    else if noKeyCmds.contains cmd ∨ c.args.length = 0 then []
    else c.args.take 1

/-- A RESP reply as seen through `resp2.RawMessage`: a bulk string
(`none` payload for the nil bulk string `$-1`), an array (`none` payload
for the nil array `*-1`), or any other reply, tagged by a code. -/
inductive RawMessage where
  | bulk (s : Option String)
  | arr (n : Option Nat)
  | other (code : Nat)
deriving DecidableEq, Repr

/-- `resp2.RawMessage.IsNil`: nil bulk string or nil array. -/
def RawMessage.IsNil : RawMessage → Bool
  | RawMessage.bulk none => true
  | RawMessage.arr none => true
  | _ => false

/-- `resp2.RawMessage.IsEmptyArray`: the `*0` array. -/
def RawMessage.IsEmptyArray : RawMessage → Bool
  | RawMessage.arr (some 0) => true
  | _ => false

/-- The `MaybeNil` wrapper.  The receiver is modelled by what has been
decoded into it: `none` before any decode, `some rm` after
`rm.UnmarshalInto(resp2.Any{I: mn.Rcv})`. -/
structure MaybeNil where
  Nil : Bool
  EmptyArray : Bool
  Rcv : Option RawMessage
deriving DecidableEq, Repr

/-- `(*MaybeNil).UnmarshalRESP(br)`.  `readRes` is the result of reading the
raw message from the stream (`Except.error` when that read itself failed,
in which case the error is returned and nothing changes).  Returns the
updated wrapper and the method's return value; decoding the raw message
into the receiver is modelled as storing it. -/
def MaybeNil.UnmarshalRESP (mn : MaybeNil) (readRes : Except RErr RawMessage) :
    MaybeNil × Option RErr :=
  match readRes with
  | Except.error e => (mn, some e)
  | Except.ok rm =>
    if rm.IsNil then ({ mn with Nil := true }, none)
    else if rm.IsEmptyArray then
      ({ mn with EmptyArray := true, Rcv := some rm }, none)
    else
      ({ mn with Rcv := some rm }, none)

/-- `EvalScript`: script body, its hex SHA1 digest, and the declared key
count.  The digest is kept abstract (its computation is external to
`action.go`'s logic). -/
structure EvalScript where
  script : String
  sum : String
  numKeys : Nat
deriving DecidableEq, Repr

/-- An `evalAction` as built by `EvalScript.Cmd`: the embedded script, the
call arguments, and the `eval` mode flag (false = EVALSHA, true = EVAL).
The receiver is omitted. -/
structure evalAction where
  es : EvalScript
  args : List String
  eval : Bool
deriving DecidableEq, Repr

/-- `EvalScript.Cmd(rcv, args...)`: panics (`none`) when fewer arguments
are given than the declared key count; otherwise builds the action with
`eval = false`. -/
def EvalScript.Cmd (es : EvalScript) (args : List String) : Option evalAction :=
  if args.length < es.numKeys then none
  else some { es := es, args := args, eval := false }

/-- `(*evalAction).Keys()`: `ec.args[:ec.numKeys]`. -/
def evalAction.Keys (ec : evalAction) : List String :=
  ec.args.take ec.es.numKeys

/-- `(*evalAction).Perform(conn)`.  `run b` models
`conn.EncodeDecode(ec, resp2.Any{I: ec.rcv})` with `ec.eval = b`
(`b = false` marshals EVALSHA with the digest, `b = true` marshals EVAL
with the script body), returning the error message of that attempt or
`none` on success.  The first attempt uses `eval = false`; only when it
errors with a message starting with `"NOSCRIPT"` is a single retry made
with `eval = true`, whose result is returned as-is. -/
def evalAction.Perform (run : Bool → Option String) : Option String :=
  match run false with
  | none => none
  | some msg => if strHasPre msg "NOSCRIPT" then run true else some msg

/-- A `withConn` as built by `WithConn(key, fn)`; the callback is not
modelled (it plays no part in `Keys`). -/
structure withConn where
  key : String
deriving DecidableEq, Repr

/-- `WithConn(key, fn)`. -/
def WithConn (key : String) : withConn :=
  { key := key }

/-- `(*withConn).Keys()`: `wc.key[:]`, the one-element array as a slice. -/
def withConn.Keys (wc : withConn) : List String :=
  [wc.key]

/-! ## Helper lemmas -/

theorem setErr_zero_map (e : RErr) (mm : List pipelineMarshalerUnmarshaler) :
    pipeline.setErr 0 e mm = mm.map (fun m => { m with err := some e }) := by
  induction mm with
  | nil => rfl
  | cons m rest ih => simp [pipeline.setErr, ih]

theorem marshalRESP_ret_none (l : List pipelineMarshalerUnmarshaler) :
    (pipeline.MarshalRESP l).2.2 = none := by
  induction l with
  | nil => rfl
  | cons m rest ih =>
    cases hM : m.Marshaler with
    | none => simp [pipeline.MarshalRESP, hM]
    | some r =>
      cases r with
      | ok bs => simp [pipeline.MarshalRESP, hM]
      | error e => simp [pipeline.MarshalRESP, hM]

/-! ## Claim theorems -/

/-- A two-entry correlation list as left after a successful submit: entry 0
recorded a non-discarded error, entry 1 recorded a discarded-wrapped
error. -/
def mmMixed : List pipelineMarshalerUnmarshaler :=
  [{ Marshaler := none, Unmarshaler := none, err := some (RErr.base 1) },
   { Marshaler := none, Unmarshaler := none,
     err := some (RErr.discarded (RErr.base 2)) }]

/-- Claim C1: the claimed resolution takes the FIRST non-nil recorded error
as the candidate, but the code keeps reassigning `err = m.err` and so
resolves from the LAST one.  On `mmMixed` (exactly one non-discarded error,
at index 0, followed by a discarded one) `Perform` returns the unwrap of the
index-1 discarded error, `RErr.base 2`, while the spec's first-candidate
resolution yields `RErr.base 1`. -/
theorem pipeline_perform_mixed_errors_returns_last :
    pipeline.Perform mmMixed none = (mmMixed, some (RErr.base 2)) ∧
    specResolveErr mmMixed = some (RErr.base 1) := by
  constructor <;> rfl

/-- Claim C4: when the outer submit operation fails with `e`, `Perform`
records `e` on every correlation-list entry (overwriting any recorded
per-item error, whatever it was) and returns exactly `e`. -/
theorem pipeline_perform_submit_fail_overrides
    (mm : List pipelineMarshalerUnmarshaler) (e : RErr) :
    pipeline.Perform mm (some e) =
      (mm.map (fun m => { m with err := some e }), some e) := by
  simp [pipeline.Perform, setErr_zero_map]

/-- Claim C7: the script action's `Perform` first runs the hash-based
(EVALSHA, `eval = false`) attempt; on success or on an error whose message
does not start with `NOSCRIPT` that outcome is returned as-is; only on a
`NOSCRIPT`-prefixed error message does it retry exactly once in full-script
(EVAL, `eval = true`) mode, returning whatever that second attempt
produces. -/
theorem evalAction_perform_retry (run : Bool → Option String) :
    (run false = none → evalAction.Perform run = none) ∧
    (∀ msg, run false = some msg → strHasPre msg "NOSCRIPT" = false →
      evalAction.Perform run = some msg) ∧
    (∀ msg, run false = some msg → strHasPre msg "NOSCRIPT" = true →
      evalAction.Perform run = run true) := by
  refine ⟨?_, ?_, ?_⟩
  · intro h; simp [evalAction.Perform, h]
  · intro msg h hp; simp [evalAction.Perform, h, hp]
  · intro msg h hp; simp [evalAction.Perform, h, hp]

/-- Witness for C7 at three concrete attempt oracles: a succeeding first
attempt, a first attempt failing with a non-`NOSCRIPT` message, and a first
attempt failing with a `NOSCRIPT` message whose retry is returned. -/
theorem evalAction_perform_retry_witness :
    ((fun _ : Bool => (none : Option String)) false = none ∧
      evalAction.Perform (fun _ => none) = none) ∧
    ((fun b : Bool => if b then none else some "WRONGTYPE bad") false
        = some "WRONGTYPE bad" ∧
      strHasPre "WRONGTYPE bad" "NOSCRIPT" = false ∧
      evalAction.Perform (fun b => if b then none else some "WRONGTYPE bad")
        = some "WRONGTYPE bad") ∧
    ((fun b : Bool => if b then some "ERR later" else some "NOSCRIPT miss")
        false = some "NOSCRIPT miss" ∧
      strHasPre "NOSCRIPT miss" "NOSCRIPT" = true ∧
      evalAction.Perform
          (fun b => if b then some "ERR later" else some "NOSCRIPT miss")
        = (fun b : Bool => if b then some "ERR later"
            else some "NOSCRIPT miss") true) := by
  refine ⟨⟨rfl, ?_⟩, ⟨rfl, by decide, ?_⟩, ⟨rfl, by decide, ?_⟩⟩
  · exact (evalAction_perform_retry (fun _ => none)).1 rfl
  · exact (evalAction_perform_retry
      (fun b => if b then none else some "WRONGTYPE bad")).2.1
      "WRONGTYPE bad" rfl (by decide)
  · exact (evalAction_perform_retry
      (fun b => if b then some "ERR later" else some "NOSCRIPT miss")).2.2
      "NOSCRIPT miss" rfl (by decide)

/-- Claim C8: `MaybeNil` decode of a successfully-read raw reply: a nil
bulk string or nil array sets the `Nil` flag and leaves the receiver (and
the `EmptyArray` flag) untouched; an empty array sets the `EmptyArray` flag
and still decodes the empty array into the receiver; any other reply is
decoded into the receiver with both flags left untouched. -/
theorem maybeNil_unmarshal_cases (mn : MaybeNil) (rm : RawMessage) :
    (rm.IsNil = true →
      MaybeNil.UnmarshalRESP mn (Except.ok rm) = ({ mn with Nil := true }, none)) ∧
    (rm.IsNil = false → rm.IsEmptyArray = true →
      MaybeNil.UnmarshalRESP mn (Except.ok rm)
        = ({ mn with EmptyArray := true, Rcv := some rm }, none)) ∧
    (rm.IsNil = false → rm.IsEmptyArray = false →
      MaybeNil.UnmarshalRESP mn (Except.ok rm)
        = ({ mn with Rcv := some rm }, none)) := by
  refine ⟨?_, ?_, ?_⟩
  · intro h; simp [MaybeNil.UnmarshalRESP, h]
  · intro h h2; simp [MaybeNil.UnmarshalRESP, h, h2]
  · intro h h2; simp [MaybeNil.UnmarshalRESP, h, h2]

/-- Witness for C8 on a fresh wrapper and the three reply shapes: the nil
bulk string, the empty array, and an ordinary reply. -/
theorem maybeNil_unmarshal_cases_witness :
    ((RawMessage.bulk none).IsNil = true ∧
      MaybeNil.UnmarshalRESP ⟨false, false, none⟩
          (Except.ok (RawMessage.bulk none))
        = (⟨true, false, none⟩, none)) ∧
    ((RawMessage.arr (some 0)).IsNil = false ∧
      (RawMessage.arr (some 0)).IsEmptyArray = true ∧
      MaybeNil.UnmarshalRESP ⟨false, false, none⟩
          (Except.ok (RawMessage.arr (some 0)))
        = (⟨false, true, some (RawMessage.arr (some 0))⟩, none)) ∧
    ((RawMessage.other 5).IsNil = false ∧
      (RawMessage.other 5).IsEmptyArray = false ∧
      MaybeNil.UnmarshalRESP ⟨false, false, none⟩
          (Except.ok (RawMessage.other 5))
        = (⟨false, false, some (RawMessage.other 5)⟩, none)) := by
  refine ⟨⟨by decide, ?_⟩, ⟨by decide, by decide, ?_⟩, ⟨by decide, by decide, ?_⟩⟩
  · exact (maybeNil_unmarshal_cases ⟨false, false, none⟩
      (RawMessage.bulk none)).1 (by decide)
  · exact (maybeNil_unmarshal_cases ⟨false, false, none⟩
      (RawMessage.arr (some 0))).2.1 (by decide) (by decide)
  · exact (maybeNil_unmarshal_cases ⟨false, false, none⟩
      (RawMessage.other 5)).2.2 (by decide) (by decide)

/-- Claim C9: `EvalScript.Cmd` with fewer call-arguments than the declared
key count fails fatally at construction (the panic, modelled as `none`),
before any marshal or network step; with at least `numKeys` arguments the
construction succeeds, and the constructed action's `Keys()` returns the
leading `numKeys` call-arguments. -/
theorem evalScript_cmd_spec (es : EvalScript) (args : List String) :
    (args.length < es.numKeys → es.Cmd args = none) ∧
    (es.numKeys ≤ args.length →
      es.Cmd args = some { es := es, args := args, eval := false } ∧
      ∀ a, es.Cmd args = some a → a.Keys = args.take es.numKeys) := by
  constructor
  · intro h; simp [EvalScript.Cmd, h]
  · intro h
    have hnot : ¬ args.length < es.numKeys := not_lt.mpr h
    constructor
    · simp [EvalScript.Cmd, hnot]
    · intro a ha
      simp [EvalScript.Cmd, hnot] at ha
      subst ha
      simp [evalAction.Keys]

/-- Witness for C9 with a script declaring 2 keys: one call-argument
panics; three call-arguments construct the action whose `Keys()` is the
leading two. -/
theorem evalScript_cmd_spec_witness :
    ((["k1"] : List String).length < (2 : Nat) ∧
      EvalScript.Cmd ⟨"return 1", "aa", 2⟩ ["k1"] = none) ∧
    ((2 : Nat) ≤ (["k1", "k2", "v"] : List String).length ∧
      EvalScript.Cmd ⟨"return 1", "aa", 2⟩ ["k1", "k2", "v"]
        = some ⟨⟨"return 1", "aa", 2⟩, ["k1", "k2", "v"], false⟩ ∧
      evalAction.Keys ⟨⟨"return 1", "aa", 2⟩, ["k1", "k2", "v"], false⟩
        = ["k1", "k2"]) := by
  refine ⟨⟨by decide, ?_⟩, by decide, ?_, ?_⟩
  · exact (evalScript_cmd_spec ⟨"return 1", "aa", 2⟩ ["k1"]).1 (by decide)
  · exact ((evalScript_cmd_spec ⟨"return 1", "aa", 2⟩
      ["k1", "k2", "v"]).2 (by decide)).1
  · exact ((evalScript_cmd_spec ⟨"return 1", "aa", 2⟩
      ["k1", "k2", "v"]).2 (by decide)).2 _
      ((evalScript_cmd_spec ⟨"return 1", "aa", 2⟩
        ["k1", "k2", "v"]).2 (by decide)).1

/-- Claim C10: for every key, including the empty string, the
scoped-connection action built by `WithConn` reports exactly that one key:
`Keys()` is the one-element slice `[key]`, never empty or nil. -/
theorem withConn_keys_single (key : String) :
    (WithConn key).Keys = [key] ∧
    ((WithConn key).Keys).length = 1 ∧
    (WithConn key).Keys ≠ [] ∧
    (WithConn "").Keys = [""] := by
  refine ⟨rfl, rfl, by simp [WithConn, withConn.Keys], rfl⟩

theorem findStreamsKeys_no_token (args : List String)
    (h : ∀ a ∈ args, goToUpper a ≠ "STREAMS") :
    findStreamsKeys args = [] := by
  induction args with
  | nil => rfl
  | cons a rest ih =>
    have ha : goToUpper a ≠ "STREAMS" := h a (by simp)
    simp [findStreamsKeys, ha]
    exact ih (fun x hx => h x (by simp [hx]))

theorem findStreamsKeys_token (pre rest : List String) (tok : String)
    (hpre : ∀ a ∈ pre, goToUpper a ≠ "STREAMS")
    (htok : goToUpper tok = "STREAMS") :
    findStreamsKeys (pre ++ tok :: rest)
      = rest.take (rest.length - rest.length / 2) := by
  induction pre with
  | nil => simp [findStreamsKeys, htok]
  | cons a pre2 ih =>
    have ha : goToUpper a ≠ "STREAMS" := hpre a (by simp)
    simp [findStreamsKeys, ha]
    exact ih (fun x hx => hpre x (by simp [hx]))

/-- Claim C5: for a `Cmd` whose upper-cased name is `XREAD` or
`XREADGROUP`, `Keys()` scans the arguments case-insensitively for the token
`STREAMS`: with no token it returns no keys; with the token first at
position `i` and remainder `args[i+1:]`, it returns the remainder minus its
trailing `len(remainder)/2` elements; in particular
`XREAD COUNT 2 STREAMS s1 s2 0 0` yields `[s1, s2]`. -/
theorem cmd_keys_streams (cmd : String) (args : List String)
    (h : goToUpper cmd = "XREAD" ∨ goToUpper cmd = "XREADGROUP") :
    (Cmd cmd args).Keys = findStreamsKeys args ∧
    ((∀ a ∈ args, goToUpper a ≠ "STREAMS") → (Cmd cmd args).Keys = []) ∧
    (∀ pre tok rest, args = pre ++ tok :: rest →
      (∀ a ∈ pre, goToUpper a ≠ "STREAMS") → goToUpper tok = "STREAMS" →
      (Cmd cmd args).Keys = rest.take (rest.length - rest.length / 2)) ∧
    (Cmd "XREAD" ["COUNT", "2", "STREAMS", "s1", "s2", "0", "0"]).Keys
      = ["s1", "s2"] := by
  have hne : goToUpper cmd ≠ "BITOP" ∧ goToUpper cmd ≠ "XINFO" ∧
      goToUpper cmd ≠ "XGROUP" := by
    rcases h with h | h <;> rw [h] <;> exact ⟨by decide, by decide, by decide⟩
  have hmain : (Cmd cmd args).Keys = findStreamsKeys args := by
    simp [cmdAction.Keys, Cmd, hne.1, hne.2.1, hne.2.2, h]
  refine ⟨hmain, ?_, ?_, by decide⟩
  · intro hno
    rw [hmain]
    exact findStreamsKeys_no_token args hno
  · intro pre tok rest hsplit hpre htok
    rw [hmain, hsplit]
    exact findStreamsKeys_token pre rest tok hpre htok

/-- Witness for C5: `XREADGROUP` in lower case with no `STREAMS` token
yields no keys, and the claim's own example
`XREAD COUNT 2 STREAMS s1 s2 0 0` yields `[s1, s2]` through the
token branch with `pre = [COUNT, 2]` and remainder `[s1, s2, 0, 0]`. -/
theorem cmd_keys_streams_witness :
    (goToUpper "xreadgroup" = "XREAD" ∨ goToUpper "xreadgroup" = "XREADGROUP") ∧
    (∀ a ∈ (["grp", "c1", "1"] : List String), goToUpper a ≠ "STREAMS") ∧
    (Cmd "xreadgroup" ["grp", "c1", "1"]).Keys = [] ∧
    (goToUpper "XREAD" = "XREAD" ∨ goToUpper "XREAD" = "XREADGROUP") ∧
    (["COUNT", "2", "STREAMS", "s1", "s2", "0", "0"] : List String)
      = ["COUNT", "2"] ++ "STREAMS" :: ["s1", "s2", "0", "0"] ∧
    (∀ a ∈ (["COUNT", "2"] : List String), goToUpper a ≠ "STREAMS") ∧
    goToUpper "STREAMS" = "STREAMS" ∧
    (Cmd "XREAD" ["COUNT", "2", "STREAMS", "s1", "s2", "0", "0"]).Keys
      = (["s1", "s2", "0", "0"] : List String).take
          ((["s1", "s2", "0", "0"] : List String).length
            - (["s1", "s2", "0", "0"] : List String).length / 2) := by
  refine ⟨Or.inr (by decide), by decide, ?_, Or.inl (by decide), by decide,
    by decide, by decide, ?_⟩
  · exact (cmd_keys_streams "xreadgroup" ["grp", "c1", "1"]
      (Or.inr (by decide))).2.1 (by decide)
  · exact (cmd_keys_streams "XREAD"
      ["COUNT", "2", "STREAMS", "s1", "s2", "0", "0"]
      (Or.inl (by decide))).2.2.1
      ["COUNT", "2"] "STREAMS" ["s1", "s2", "0", "0"]
      (by decide) (by decide) (by decide)

/-- Claim C6: the `Keys()` table, per upper-cased command name: `BITOP`
with more than one argument yields all arguments except the first; `XINFO`
yields only the second argument (none with fewer than two); `XGROUP` with
more than one argument yields only the second argument; every name in the
no-key set yields no keys, as does any command with zero arguments; any
other command yields exactly its first argument; and a `FlatCmd` always
yields exactly its single bound key. -/
theorem cmd_keys_table (cmd key : String) (args : List String) :
    (goToUpper cmd = "BITOP" → 1 < args.length →
      (Cmd cmd args).Keys = args.drop 1) ∧
    (goToUpper cmd = "XINFO" →
      (Cmd cmd args).Keys
        = if args.length < 2 then [] else (args.drop 1).take 1) ∧
    (goToUpper cmd = "XGROUP" → 1 < args.length →
      (Cmd cmd args).Keys = (args.drop 1).take 1) ∧
    (noKeyCmds.contains (goToUpper cmd) = true → (Cmd cmd args).Keys = []) ∧
    (args = [] → (Cmd cmd args).Keys = []) ∧
    (goToUpper cmd ∉ (["BITOP", "XINFO", "XGROUP", "XREAD", "XREADGROUP"] :
        List String) →
      noKeyCmds.contains (goToUpper cmd) = false → args ≠ [] →
      (Cmd cmd args).Keys = args.take 1) ∧
    (FlatCmd cmd key).Keys = [key] := by
  refine ⟨?_, ?_, ?_, ?_, ?_, ?_, rfl⟩
  · intro h hlen
    simp [cmdAction.Keys, Cmd, h, hlen]
  · intro h
    have h1 : goToUpper cmd ≠ "BITOP" := by rw [h]; decide
    simp [cmdAction.Keys, Cmd, h, h1]
  · intro h hlen
    have h1 : goToUpper cmd ≠ "BITOP" := by rw [h]; decide
    have h2 : goToUpper cmd ≠ "XINFO" := by rw [h]; decide
    simp [cmdAction.Keys, Cmd, h, h1, h2, hlen]
  · intro h
    have h1 : goToUpper cmd ≠ "BITOP" := by
      intro heq; rw [heq] at h; exact absurd h (by decide)
    have h2 : goToUpper cmd ≠ "XINFO" := by
      intro heq; rw [heq] at h; exact absurd h (by decide)
    have h3 : goToUpper cmd ≠ "XGROUP" := by
      intro heq; rw [heq] at h; exact absurd h (by decide)
    have h4 : goToUpper cmd ≠ "XREAD" := by
      intro heq; rw [heq] at h; exact absurd h (by decide)
    have h5 : goToUpper cmd ≠ "XREADGROUP" := by
      intro heq; rw [heq] at h; exact absurd h (by decide)
    have hmem : goToUpper cmd ∈ noKeyCmds := by simpa using h
    simp [cmdAction.Keys, Cmd, h1, h2, h3, h4, h5, hmem]
  · intro h
    subst h
    simp only [cmdAction.Keys, Cmd]
    norm_num
    exact fun _ _ => rfl
  · intro hne hcon hargs
    simp at hne
    obtain ⟨h1, h2, h3, h4, h5⟩ := hne
    have hnmem : goToUpper cmd ∉ noKeyCmds := by simpa using hcon
    have hlen : ¬ args.length = 0 := by
      intro h0
      exact hargs (List.length_eq_zero.mp h0)
    simp [cmdAction.Keys, Cmd, h1, h2, h3, h4, h5, hnmem, hlen]

/-- Witness for C6 at concrete commands: `bitop` with three arguments,
`XINFO` with one and with two arguments, `xgroup` with two arguments,
the no-key command `ping`, a zero-argument `GET`, the default case
`GET k v`, and a `FlatCmd`. -/
theorem cmd_keys_table_witness :
    (goToUpper "bitop" = "BITOP" ∧
      1 < (["AND", "d", "s1"] : List String).length ∧
      (Cmd "bitop" ["AND", "d", "s1"]).Keys = ["d", "s1"]) ∧
    (goToUpper "XINFO" = "XINFO" ∧
      (Cmd "XINFO" ["STREAM"]).Keys
        = if (["STREAM"] : List String).length < 2 then []
          else ((["STREAM"] : List String).drop 1).take 1) ∧
    (goToUpper "XINFO" = "XINFO" ∧
      (Cmd "XINFO" ["STREAM", "k"]).Keys
        = if (["STREAM", "k"] : List String).length < 2 then []
          else ((["STREAM", "k"] : List String).drop 1).take 1) ∧
    (goToUpper "xgroup" = "XGROUP" ∧
      1 < (["CREATE", "k"] : List String).length ∧
      (Cmd "xgroup" ["CREATE", "k"]).Keys = ["k"]) ∧
    (noKeyCmds.contains (goToUpper "ping") = true ∧
      (Cmd "ping" ["x"]).Keys = []) ∧
    (Cmd "GET" ([] : List String)).Keys = [] ∧
    (goToUpper "GET" ∉ (["BITOP", "XINFO", "XGROUP", "XREAD", "XREADGROUP"] :
        List String) ∧
      noKeyCmds.contains (goToUpper "GET") = false ∧
      (["k", "v"] : List String) ≠ [] ∧
      (Cmd "GET" ["k", "v"]).Keys = ["k"]) ∧
    (FlatCmd "SET" "fk").Keys = ["fk"] := by
  refine ⟨⟨by decide, by decide, ?_⟩, ⟨by decide, ?_⟩, ⟨by decide, ?_⟩,
    ⟨by decide, by decide, ?_⟩, ⟨by decide, ?_⟩, ?_, ⟨by decide, by decide,
    by decide, ?_⟩, ?_⟩
  · exact (cmd_keys_table "bitop" "" ["AND", "d", "s1"]).1
      (by decide) (by decide)
  · exact (cmd_keys_table "XINFO" "" ["STREAM"]).2.1 (by decide)
  · exact (cmd_keys_table "XINFO" "" ["STREAM", "k"]).2.1 (by decide)
  · exact (cmd_keys_table "xgroup" "" ["CREATE", "k"]).2.2.1
      (by decide) (by decide)
  · exact (cmd_keys_table "ping" "" ["x"]).2.2.2.1 (by decide)
  · exact (cmd_keys_table "GET" "" []).2.2.2.2.1 rfl
  · exact (cmd_keys_table "GET" "" ["k", "v"]).2.2.2.2.2.1
      (by decide) (by decide) (by decide)
  · exact (cmd_keys_table "SET" "fk" []).2.2.2.2.2.2

/-- The bytes contributed to the aggregate write by a run of entries whose
marshal steps do not fail: the concatenation of the bytes of the entries
that have a marshaler. -/
def okBytes : List pipelineMarshalerUnmarshaler → List Nat
  | [] => []
  | m :: rest =>
    match m.Marshaler with
    | some (Except.ok bs) => bs ++ okBytes rest
    | _ => okBytes rest

theorem marshal_ok_head (pre s l2 : List pipelineMarshalerUnmarshaler)
    (b2 : List Nat) (r2 : Option RErr)
    (hpre : ∀ x ∈ pre,
      x.Marshaler = none ∨ ∃ bs, x.Marshaler = some (Except.ok bs))
    (hs : pipeline.MarshalRESP s = (l2, b2, r2)) :
    pipeline.MarshalRESP (pre ++ s) = (pre ++ l2, okBytes pre ++ b2, none) := by
  induction pre with
  | nil =>
    have h3 : r2 = none := by
      have h4 := marshalRESP_ret_none s
      rw [hs] at h4
      exact h4
    simp only [List.nil_append, okBytes]
    rw [hs, h3]
  | cons x pre2 ih =>
    have hx := hpre x (by simp)
    have ih2 := ih (fun y hy => hpre y (by simp [hy]))
    rcases hx with hnone | ⟨bs, hbs⟩
    · simp [pipeline.MarshalRESP, hnone, okBytes, ih2]
    · simp [pipeline.MarshalRESP, hbs, okBytes, ih2]

/-- Claim C2: during the aggregate marshal with an error-free correlation
list whose first marshal failure is the entry `m` (failing with `e`) after
the successfully-marshaling run `pre`, only the bytes of `pre` are written,
`pre`'s entries come through unchanged (hence still carry no error), `e` is
recorded on the failing entry and on every subsequent entry, and the
aggregate marshal returns `nil` — as it does on every input. -/
theorem pipeline_marshal_first_failure
    (pre post : List pipelineMarshalerUnmarshaler)
    (m : pipelineMarshalerUnmarshaler) (e : RErr)
    (hpre : ∀ x ∈ pre, x.err = none ∧
      (x.Marshaler = none ∨ ∃ bs, x.Marshaler = some (Except.ok bs)))
    (hm : m.err = none) (hmr : m.Marshaler = some (Except.error e)) :
    pipeline.MarshalRESP (pre ++ m :: post)
      = (pre ++ ({ m with err := some e } :: pipeline.setErr 0 e post),
         okBytes pre, none) ∧
    ∀ l, (pipeline.MarshalRESP l).2.2 = none := by
  constructor
  · have hs : pipeline.MarshalRESP (m :: post)
        = ({ m with err := some e } :: pipeline.setErr 0 e post, [], none) := by
      simp [pipeline.MarshalRESP, hmr]
    have h := marshal_ok_head pre (m :: post) _ _ _
      (fun x hx => (hpre x hx).2) hs
    simpa using h
  · exact marshalRESP_ret_none

/-- Witness for C2: three entries; entry 0 marshals to bytes `[1, 2]`,
entry 1 fails with `RErr.base 7`, entry 2 would marshal to `[3]` but is
never marshaled; the error lands on entries 1 and 2 and only `[1, 2]` is
written. -/
theorem pipeline_marshal_first_failure_witness :
    (∀ x ∈ ([⟨some (Except.ok [1, 2]), some none, none⟩] :
        List pipelineMarshalerUnmarshaler), x.err = none ∧
      (x.Marshaler = none ∨ ∃ bs, x.Marshaler = some (Except.ok bs))) ∧
    (⟨some (Except.error (RErr.base 7)), some none, none⟩ :
        pipelineMarshalerUnmarshaler).err = none ∧
    (⟨some (Except.error (RErr.base 7)), some none, none⟩ :
        pipelineMarshalerUnmarshaler).Marshaler
      = some (Except.error (RErr.base 7)) ∧
    pipeline.MarshalRESP
        [⟨some (Except.ok [1, 2]), some none, none⟩,
         ⟨some (Except.error (RErr.base 7)), some none, none⟩,
         ⟨some (Except.ok [3]), some none, none⟩]
      = ([⟨some (Except.ok [1, 2]), some none, none⟩,
          ⟨some (Except.error (RErr.base 7)), some none, some (RErr.base 7)⟩,
          ⟨some (Except.ok [3]), some none, some (RErr.base 7)⟩],
         [1, 2], none) := by
  refine ⟨?_, rfl, rfl, ?_⟩
  · intro x hx
    simp at hx
    subst hx
    exact ⟨rfl, Or.inr ⟨[1, 2], rfl⟩⟩
  · have h := (pipeline_marshal_first_failure
      [⟨some (Except.ok [1, 2]), some none, none⟩]
      [⟨some (Except.ok [3]), some none, none⟩]
      ⟨some (Except.error (RErr.base 7)), some none, none⟩
      (RErr.base 7)
      (by intro x hx; simp at hx; subst hx;
          exact ⟨rfl, Or.inr ⟨[1, 2], rfl⟩⟩)
      rfl rfl).1
    simpa [pipeline.setErr, okBytes] using h

/-- The effect of one aggregate-unmarshal step on a non-fatal entry: an
entry with no unmarshal step, or already carrying an error, or decoding
successfully, is left unchanged; an entry whose decode fails with a
discarded-classified error gets that error recorded. -/
def recordStep (m : pipelineMarshalerUnmarshaler) :
    pipelineMarshalerUnmarshaler :=
  match m.Unmarshaler, m.err with
  | some (some e), none =>
    if (errorsAsDiscarded e).isSome then { m with err := some e } else m
  | _, _ => m

/-- An entry on which the aggregate unmarshal does not stop: skipped
(no unmarshal step or an error already recorded), decoding successfully,
or failing with a discarded-classified decode error. -/
def nonFatal (m : pipelineMarshalerUnmarshaler) : Bool :=
  match m.Unmarshaler, m.err with
  | none, _ => true
  | some _, some _ => true
  | some none, none => true
  | some (some e), none => (errorsAsDiscarded e).isSome

theorem unmarshal_map_nonfatal (l : List pipelineMarshalerUnmarshaler)
    (h : ∀ x ∈ l, nonFatal x = true) :
    pipeline.UnmarshalRESP l = l.map recordStep := by
  induction l with
  | nil => rfl
  | cons x rest ih =>
    have hx := h x (by simp)
    have hrest := ih (fun y hy => h y (by simp [hy]))
    rcases hU : x.Unmarshaler with _ | u
    · simp [pipeline.UnmarshalRESP, hU, recordStep, hrest]
    · rcases hE : x.err with _ | er
      · rcases u with _ | e2
        · simp [pipeline.UnmarshalRESP, hU, hE, recordStep, hrest]
        · have hdisc : (errorsAsDiscarded e2).isSome = true := by
            simpa [nonFatal, hU, hE] using hx
          simp [pipeline.UnmarshalRESP, hU, hE, hdisc, recordStep, hrest]
      · simp [pipeline.UnmarshalRESP, hU, hE, recordStep, hrest]

theorem unmarshal_nonfatal_head (pre s : List pipelineMarshalerUnmarshaler)
    (hpre : ∀ x ∈ pre, nonFatal x = true) :
    pipeline.UnmarshalRESP (pre ++ s)
      = pre.map recordStep ++ pipeline.UnmarshalRESP s := by
  induction pre with
  | nil => simp
  | cons x pre2 ih =>
    have hx := hpre x (by simp)
    have ih2 := ih (fun y hy => hpre y (by simp [hy]))
    rcases hU : x.Unmarshaler with _ | u
    · simp [pipeline.UnmarshalRESP, hU, recordStep, ih2]
    · rcases hE : x.err with _ | er
      · rcases u with _ | e2
        · simp [pipeline.UnmarshalRESP, hU, hE, recordStep, ih2]
        · have hdisc : (errorsAsDiscarded e2).isSome = true := by
            simpa [nonFatal, hU, hE] using hx
          simp [pipeline.UnmarshalRESP, hU, hE, hdisc, recordStep, ih2]
      · simp [pipeline.UnmarshalRESP, hU, hE, recordStep, ih2]

/-- Claim C3: the aggregate unmarshal processes entries in order.  Over a
run `pre` of non-fatal entries it skips entries with no unmarshal step or
an already-recorded error, leaves successful decodes unchanged, and records
a discarded-classified decode error on its own entry while continuing (the
`map recordStep` image); at the first entry `m` whose decode fails with a
non-discarded error `e`, it records `e` on `m` and on every subsequent
entry and consumes nothing further.  On a list of only non-fatal entries it
is exactly the per-entry `recordStep` map. -/
theorem pipeline_unmarshal_first_fatal
    (pre post : List pipelineMarshalerUnmarshaler)
    (m : pipelineMarshalerUnmarshaler) (e : RErr)
    (hpre : ∀ x ∈ pre, nonFatal x = true)
    (hm : m.err = none) (hmu : m.Unmarshaler = some (some e))
    (hd : errorsAsDiscarded e = none) :
    pipeline.UnmarshalRESP (pre ++ m :: post)
      = pre.map recordStep
        ++ ({ m with err := some e } :: pipeline.setErr 0 e post) ∧
    ∀ l, (∀ x ∈ l, nonFatal x = true) →
      pipeline.UnmarshalRESP l = l.map recordStep := by
  constructor
  · rw [unmarshal_nonfatal_head pre (m :: post) hpre]
    simp [pipeline.UnmarshalRESP, hmu, hm, hd]
  · exact unmarshal_map_nonfatal

/-- Witness for C3: `pre` holds one entry of each non-fatal kind — no
unmarshal step; an already-recorded error; a successful decode; a
discarded-classified decode error — followed by the fatal entry (decode
error `RErr.base 4`) and one further entry that is never consumed. -/
theorem pipeline_unmarshal_first_fatal_witness :
    (∀ x ∈ ([⟨none, none, none⟩,
             ⟨none, some none, some (RErr.base 9)⟩,
             ⟨none, some none, none⟩,
             ⟨none, some (some (RErr.discarded (RErr.base 3))), none⟩] :
        List pipelineMarshalerUnmarshaler), nonFatal x = true) ∧
    (⟨none, some (some (RErr.base 4)), none⟩ :
        pipelineMarshalerUnmarshaler).err = none ∧
    (⟨none, some (some (RErr.base 4)), none⟩ :
        pipelineMarshalerUnmarshaler).Unmarshaler
      = some (some (RErr.base 4)) ∧
    errorsAsDiscarded (RErr.base 4) = none ∧
    pipeline.UnmarshalRESP
        [⟨none, none, none⟩,
         ⟨none, some none, some (RErr.base 9)⟩,
         ⟨none, some none, none⟩,
         ⟨none, some (some (RErr.discarded (RErr.base 3))), none⟩,
         ⟨none, some (some (RErr.base 4)), none⟩,
         ⟨none, some none, none⟩]
      = [⟨none, none, none⟩,
         ⟨none, some none, some (RErr.base 9)⟩,
         ⟨none, some none, none⟩,
         ⟨none, some (some (RErr.discarded (RErr.base 3))),
          some (RErr.discarded (RErr.base 3))⟩,
         ⟨none, some (some (RErr.base 4)), some (RErr.base 4)⟩,
         ⟨none, some none, some (RErr.base 4)⟩] := by
  refine ⟨?_, rfl, rfl, rfl, ?_⟩
  · intro x hx
    simp at hx
    rcases hx with h | h | h | h <;> subst h <;> rfl
  · have h := (pipeline_unmarshal_first_fatal
      [⟨none, none, none⟩,
       ⟨none, some none, some (RErr.base 9)⟩,
       ⟨none, some none, none⟩,
       ⟨none, some (some (RErr.discarded (RErr.base 3))), none⟩]
      [⟨none, some none, none⟩]
      ⟨none, some (some (RErr.base 4)), none⟩
      (RErr.base 4)
      (by intro x hx; simp at hx
          rcases hx with h | h | h | h <;> subst h <;> rfl)
      rfl rfl rfl).1
    simpa [pipeline.setErr, recordStep, errorsAsDiscarded] using h
